import Mathlib

/-!
Verification of the `perlin-noise` TypeScript library.

The development shallowly embeds the sources `src/grid.ts`, `src/scalar.ts`,
`src/interpolation.ts` and `src/index.ts`.  Modelling conventions:

* JavaScript numbers are modelled as rationals (`ℚ`); all arithmetic the
  program performs on the verified paths is exact on the inputs considered.
* The JavaScript remainder `a % b` truncates towards zero (the result carries
  the sign of the dividend); it is modelled by `jsMod` below, and `Int.tmod`
  on integers.
* A JavaScript `Map` keyed by `coord.join(',')` is modelled as an association
  list keyed by the coordinate list itself: on the integer-valued coordinates
  the program uses, `join` is injective, so the two key spaces coincide.
* `Math.sqrt` is a floating-point operation whose exact values no claim below
  depends on; it is replaced by the deterministic stand-in `sqrtQ`, which is
  zero exactly on nonpositive inputs (mirroring the `magnitude === 0` test).
* Functions that can `throw` return `Except String _`.
-/

/- ================= src/grid.ts ================= -/

/-- One step of the linear congruential generator inside `createSeededRNG`:
`value = (value * 9301 + 49297) % 233280` with the JS truncated remainder. -/
def rngStep (value : ℤ) : ℤ := Int.tmod (value * 9301 + 49297) 233280

/-- The number returned by one call of the closure produced by
`createSeededRNG`, given the closure's current `value`: the updated value
divided by 233280. -/
def rngValue (value : ℤ) : ℚ := ((rngStep value : ℤ) : ℚ) / 233280

/-- The stream of numbers produced by `createSeededRNG(seed)`:
`rngStream seed n` is the value returned by the (n+1)-th call. -/
def rngStream (seed : ℤ) (n : ℕ) : ℚ := rngValue (rngStep^[n] seed)

/-- Model of `randomRange(min, max, rng)` together with the rng state threading:
returns the drawn number and the rng's next internal state. -/
def randomRange (lo hi : ℚ) (state : ℤ) : ℚ × ℤ :=
  (lo + rngValue state * (hi - lo), rngStep state)

/-- Stand-in for `Math.sqrt` (Newton iteration on `ℚ`).  The TypeScript code
computes a floating-point square root; its exact value is not rational and no
claim proved below depends on it — only determinism, the zero test and vector
lengths matter.  `sqrtQ q = 0` iff `q ≤ 0`, and sums of squares are
nonnegative, so the `magnitude === 0` branch is taken exactly when the vector
is the zero vector, as in the source. -/
def sqrtQ (q : ℚ) : ℚ :=
  if q ≤ 0 then 0 else (List.range 20).foldl (fun x _ => (x + q / x) / 2) (q + 1)

/-- Model of `normalizeVector` from src/grid.ts. -/
def normalizeVector (vector : List ℚ) : List ℚ :=
  let magnitude := sqrtQ (vector.foldl (fun sum val => sum + val * val) 0)
  if magnitude = 0 then vector.map (fun _ => 0)
  else vector.map (fun val => val / magnitude)

/-- The loop inside `generateUnitGradient` that pushes `dimension` draws of
`randomRange(-1, 1, rng)`, threading the rng state. -/
def drawVector (dimension : ℕ) (state : ℤ) : List ℚ × ℤ :=
  match dimension with
  | 0 => ([], state)
  | n + 1 =>
    let p := randomRange (-1) 1 state
    let rest := drawVector n p.2
    (p.1 :: rest.1, rest.2)

/-- Model of `generateUnitGradient` from src/grid.ts. -/
def generateUnitGradient (dimension : ℕ) (state : ℤ) : List ℚ × ℤ :=
  let p := drawVector dimension state
  (normalizeVector p.1, p.2)

/-- Model of `generateCoordinates` from src/grid.ts: recursively generates all
coordinate combinations.  The `for (i = 0; i < gridPoints[currentDim]; i++)`
loop over a (possibly non-integer, possibly out-of-range) bound runs
`⌈bound⌉₊` times, with a missing entry (`undefined`) giving zero iterations,
modelled by `getD` with default 0. -/
def generateCoordinates (dimension : ℕ) (gridPoints : List ℚ)
    (currentCoords : List ℚ) : List (List ℚ) :=
  if _h : currentCoords.length = dimension then [currentCoords]
  else
    (List.range ⌈gridPoints.getD currentCoords.length 0⌉₊).attach.flatMap
      (fun i => generateCoordinates dimension gridPoints
        (currentCoords ++ [((i.1 : ℕ) : ℚ)]))
termination_by max dimension gridPoints.length + 1 - currentCoords.length
decreasing_by
  obtain ⟨j, hj⟩ := i
  have hi : j < ⌈gridPoints.getD currentCoords.length 0⌉₊ := List.mem_range.mp hj
  have hlen : currentCoords.length < gridPoints.length := by
    by_contra hge
    have hi2 : ((j : ℕ) : ℚ) < gridPoints.getD currentCoords.length 0 :=
      Nat.lt_ceil.mp hi
    rw [List.getD_eq_default _ _ (le_of_not_lt hge)] at hi2
    linarith [Nat.cast_nonneg (α := ℚ) j]
  have hmax : gridPoints.length ≤ max dimension gridPoints.length := le_max_right _ _
  simp only [List.length_append, List.length_cons, List.length_nil]
  omega

/-- TS `GradientVector = number | number[]`; `Sum.inl` is the 1-D scalar. -/
abbrev GradientVector := ℚ ⊕ List ℚ

/-- The gradient `Map`, as an association list (cf. module conventions). -/
abbrev GridMap := List (List ℚ × GradientVector)

/-- JS `Map.set`: replaces the value in place when the key is present,
appends otherwise. -/
def mapSet (grid : GridMap) (key : List ℚ) (gradient : GradientVector) : GridMap :=
  if grid.any (fun p => decide (p.1 = key)) then
    grid.map (fun p => if p.1 = key then (key, gradient) else p)
  else grid ++ [(key, gradient)]

/-- Model of `getGradientAt` from src/grid.ts (JS `Map.get`, `undefined` = `none`). -/
def getGradientAt (grid : GridMap) (coordinates : List ℚ) : Option GradientVector :=
  (grid.find? (fun p => decide (p.1 = coordinates))).map (fun p => p.2)

/-- The `for (const coord of coordinates)` loop of `generateGradientGrid`:
draws a scalar (1-D) or a unit vector (multi-D) per coordinate, in order,
threading the rng state, and inserts it under the coordinate key. -/
def gridLoop (dimension : ℕ) (coords : List (List ℚ)) (state : ℤ)
    (grid : GridMap) : GridMap :=
  match coords with
  | [] => grid
  | coord :: rest =>
    if dimension = 1 then
      let p := randomRange (-1) 1 state
      gridLoop dimension rest p.2 (mapSet grid coord (Sum.inl p.1))
    else
      let p := generateUnitGradient dimension state
      gridLoop dimension rest p.2 (mapSet grid coord (Sum.inr p.1))

/-- Model of `generateGradientGrid` from src/grid.ts. -/
def generateGradientGrid (dimension : ℕ) (size : List ℚ) (seed : ℤ) :
    Except String GridMap :=
  if dimension < 1 then .error "Dimension must be a positive integer"
  else if size.length ≠ dimension then
    .error "Size array length must match dimension"
  else
    let gridPoints := size.map (fun s => s + 1)
    let coordinates := generateCoordinates dimension gridPoints []
    .ok (gridLoop dimension coordinates seed [])

/- ================= src/scalar.ts ================= -/

/-- Model of `dotProduct` from src/scalar.ts. -/
def dotProduct (gradient : GradientVector) (distanceVector : List ℚ) :
    Except String ℚ :=
  match gradient with
  | Sum.inl g => .ok (g * distanceVector.getD 0 0)
  | Sum.inr v =>
    if v.length ≠ distanceVector.length then
      .error "Gradient vector length must match distance vector length"
    else .ok ((List.zipWith (fun a b => a * b) v distanceVector).foldl
      (fun sum x => sum + x) 0)

/-- Model of `generateCellVertices` from src/scalar.ts: vertex `i` offsets axis `d`
by `(i >> d) & 1`. -/
def generateCellVertices (cellCoordinates : List ℚ) : List (List ℚ) :=
  (List.range (2 ^ cellCoordinates.length)).map (fun i =>
    (List.range cellCoordinates.length).map (fun d =>
      cellCoordinates.getD d 0 + ((((i >>> d) &&& 1 : ℕ)) : ℚ)))

/-- Model of `calculateDistanceVector` from src/scalar.ts. -/
def calculateDistanceVector (point vertex : List ℚ) : Except String (List ℚ) :=
  if point.length ≠ vertex.length then
    .error "Point dimension must match vertex dimension"
  else .ok (List.zipWith (fun a b => a - b) point vertex)

/-- Model of `findCell` from src/scalar.ts. -/
def findCell (point : List ℚ) : List ℚ := point.map (fun coord => ((⌊coord⌋ : ℤ) : ℚ))

/-- The `for (const vertex of vertices)` loop of `calculateScalarValues`. -/
def scalarLoop (grid : GridMap) (point : List ℚ) :
    List (List ℚ) → Except String (List ℚ)
  | [] => .ok []
  | vertex :: rest => do
    let distanceVector ← calculateDistanceVector point vertex
    match getGradientAt grid vertex with
    | none => .error "Gradient not found at vertex. Point may be outside grid bounds."
    | some gradient => do
      let dotProductValue ← dotProduct gradient distanceVector
      let restValues ← scalarLoop grid point rest
      .ok (dotProductValue :: restValues)

/-- Model of `calculateScalarValues` from src/scalar.ts. -/
def calculateScalarValues (grid : GridMap) (point : List ℚ) :
    Except String (List ℚ) :=
  scalarLoop grid point (generateCellVertices (findCell point))

/- ================= src/interpolation.ts ================= -/

/-- Model of `smoothstep` from src/interpolation.ts. -/
def smoothstep (t : ℚ) : ℚ :=
  let clamped := max 0 (min 1 t)
  clamped * clamped * (3 - 2 * clamped)

/-- Model of `calculateFractionalCoordinates` from src/interpolation.ts. -/
def calculateFractionalCoordinates (point : List ℚ) : List ℚ :=
  point.map (fun coord => coord - ((⌊coord⌋ : ℤ) : ℚ))

/-- Model of `interpolate1D` from src/interpolation.ts. -/
def interpolate1D (a0 a1 t : ℚ) : ℚ := a0 + smoothstep t * (a1 - a0)

/-- Model of `interpolateRecursive` from src/interpolation.ts.  `Array.slice`
truncates its bound, so `slice(0, n/2)` / `slice(n/2)` are `take (n / 2)` /
`drop (n / 2)` with natural division.  `fractionalCoords[dimension - 1] || 0`
is `getD (dimension - 1) 0`: `x || 0` is `x` for every nonzero number and `0`
for `0` and `undefined`.  The `0 / 0` of the defensive averaging branch on an
empty list is `NaN` in JS and `0` in `ℚ`; no claim touches that branch. -/
def interpolateRecursive (scalarValues fractionalCoords : List ℚ)
    (dimension : ℕ) : ℚ :=
  if scalarValues.length = 1 then scalarValues.getD 0 0
  else if _h : fractionalCoords.length ≤ dimension then
    if scalarValues.length = 2 then
      interpolate1D (scalarValues.getD 0 0) (scalarValues.getD 1 0)
        (fractionalCoords.getD (dimension - 1) 0)
    else (scalarValues.foldl (fun sum val => sum + val) 0) / (scalarValues.length : ℚ)
  else
    let t := fractionalCoords.getD dimension 0
    let valuesPerHalf := scalarValues.length / 2
    let lowerValues := scalarValues.take valuesPerHalf
    let upperValues := scalarValues.drop valuesPerHalf
    interpolate1D (interpolateRecursive lowerValues fractionalCoords (dimension + 1))
      (interpolateRecursive upperValues fractionalCoords (dimension + 1)) t
termination_by fractionalCoords.length - dimension
decreasing_by
  all_goals omega

/-- Model of `interpolateScalarValues` from src/interpolation.ts. -/
def interpolateScalarValues (scalarValues point : List ℚ) : Except String ℚ :=
  let dimension := point.length
  let expectedCount := 2 ^ dimension
  if scalarValues.length ≠ expectedCount then
    .error "The number of scalar values must be equal to 2 ^ dimension"
  else .ok (interpolateRecursive scalarValues
    (calculateFractionalCoordinates point) 0)

/- ================= src/index.ts ================= -/

/-- Truncation towards zero, as used by the JS `%` operator. -/
def qTrunc (q : ℚ) : ℤ := if 0 ≤ q then ⌊q⌋ else ⌈q⌉

/-- The JS remainder `a % b` on numbers: `a - b * trunc(a / b)` (sign of the
dividend).  For `b = 0` JS yields `NaN`; in `ℚ`, `a / 0 = 0` makes
`jsMod a 0 = a`.  That case is unreachable in the claims proved below (grid
sizes there are positive). -/
def jsMod (a b : ℚ) : ℚ := a - b * ((qTrunc (a / b) : ℤ) : ℚ)

/-- The per-axis wrapping `((coord % size) + size) % size` of
`PerlinNoise.noise`. -/
def wrapCoord (coord size : ℚ) : ℚ := jsMod (jsMod coord size + size) size

/-- The state of a `PerlinNoise` instance (class fields of src/index.ts). -/
structure PerlinNoise where
  grid : GridMap
  seed : ℤ
  gridSize : List ℚ
  dimension : ℕ

/-- The `PerlinNoise` constructor with an explicit seed. -/
def mkPerlinNoise (seed : ℤ) (gridSize : List ℚ) : Except String PerlinNoise :=
  if gridSize.length < 1 ∨ 10 < gridSize.length then
    .error "Grid size array length must be between 1 and 10"
  else
    (generateGradientGrid gridSize.length gridSize seed).map
      (fun grid => ⟨grid, seed, gridSize, gridSize.length⟩)

/-- A concrete constructed instance (the `Except`-free payload of
`mkPerlinNoise`), used to instantiate theorems at specific configurations. -/
def samplePerlin (seed : ℤ) (gridSize : List ℚ) : PerlinNoise :=
  ⟨(generateGradientGrid gridSize.length gridSize seed).toOption.getD [],
    seed, gridSize, gridSize.length⟩

/-- Model of `PerlinNoise.noise` from src/index.ts.  The source maps over
`coordinates` with the element index (`point.map((coord, i) => ...)`); that
is modelled as a map over `List.range coordinates.length` with `getD`. -/
def PerlinNoise.noise (self : PerlinNoise) (coordinates : List ℚ) :
    Except String ℚ :=
  if coordinates.length ≠ self.dimension then
    .error "Coordinates array length must match grid dimension"
  else
    let wrappedPoint := (List.range coordinates.length).map
      (fun i => wrapCoord (coordinates.getD i 0) (self.gridSize.getD i 0))
    do
      let scalarValues ← calculateScalarValues self.grid wrappedPoint
      interpolateScalarValues scalarValues wrappedPoint

/- ================= Specification-side definitions ================= -/

/-- Modelled from the spec (claim C1's weighting): corner `i` is weighted by
the product over axes `d` of the smoothstep blend weight that matches bit `d`
of `i` — `smoothstep (fract d)` when axis `d`'s offset bit is 1, and
`1 - smoothstep (fract d)` when it is 0. -/
def claimedCornerWeight (fract : List ℚ) (i : ℕ) : ℚ :=
  ((List.range fract.length).map (fun d =>
    if (i >>> d) &&& 1 = 1 then smoothstep (fract.getD d 0)
    else 1 - smoothstep (fract.getD d 0))).prod

/-- Modelled from the spec (claim C1): the interpolation that weights every
corner scalar by `claimedCornerWeight` of its own index. -/
def claimedInterpolation (scalarValues fract : List ℚ) : ℚ :=
  ((List.range scalarValues.length).map
    (fun i => claimedCornerWeight fract i * scalarValues.getD i 0)).sum

/- ================= Derived notions used by the theorems ================= -/

/-- The keys of the gradient map, in insertion order. -/
def gridKeys (grid : GridMap) : List (List ℚ) := grid.map (fun p => p.1)

/-- The coordinate tuples `generateCoordinates` enumerates, described
structurally: lexicographic enumeration with axis bound `⌈p⌉₊` per axis. -/
def tupleList : List ℚ → List (List ℚ)
  | [] => [[]]
  | p :: ps => (List.range ⌈p⌉₊).flatMap (fun i => (tupleList ps).map (fun t => ((i : ℕ) : ℚ) :: t))

/-- Shape of the stored gradient values: the 1-D case stores a scalar, the
multi-dimensional case a vector of `dimension` components. -/
def gradShape (dimension : ℕ) (v : GradientVector) : Prop :=
  if dimension = 1 then ∃ q, v = Sum.inl q
  else ∃ l, v = Sum.inr l ∧ l.length = dimension

/- ================= Basic lemmas ================= -/

lemma smoothstep_of_mem (t : ℚ) (h0 : 0 ≤ t) (h1 : t ≤ 1) :
    smoothstep t = t * t * (3 - 2 * t) := by
  unfold smoothstep
  rw [min_eq_right h1, max_eq_right h0]

lemma smoothstep_zero : smoothstep 0 = 0 := by
  rw [smoothstep_of_mem 0 le_rfl (by norm_num)]; ring

lemma smoothstep_half : smoothstep (1/2) = 1/2 := by
  rw [smoothstep_of_mem (1/2) (by norm_num) (by norm_num)]
  norm_num

lemma interpolate1D_zero (a0 a1 : ℚ) : interpolate1D a0 a1 0 = a0 := by
  rw [interpolate1D, smoothstep_zero]; ring

/-- C8: the smoothstep blending curve satisfies its stated laws. -/
theorem smoothstep_laws :
    smoothstep 0 = 0 ∧ smoothstep 1 = 1 ∧ smoothstep (1/2) = 1/2 ∧
    (∀ t : ℚ, 0 ≤ t → t ≤ 1 → smoothstep t + smoothstep (1 - t) = 1) ∧
    (∀ a b : ℚ, 0 ≤ a → a ≤ b → b ≤ 1 → smoothstep a ≤ smoothstep b) ∧
    (∀ t : ℚ, t < 0 → smoothstep t = 0) ∧
    (∀ t : ℚ, 1 < t → smoothstep t = 1) := by
  refine ⟨smoothstep_zero, ?_, ?_, ?_, ?_, ?_, ?_⟩
  · rw [smoothstep_of_mem 1 (by norm_num) le_rfl]; ring
  · rw [smoothstep_of_mem (1/2) (by norm_num) (by norm_num)]; norm_num
  · intro t h0 h1
    rw [smoothstep_of_mem t h0 h1, smoothstep_of_mem (1 - t) (by linarith) (by linarith)]
    ring
  · intro a b ha hab hb1
    rw [smoothstep_of_mem a ha (by linarith), smoothstep_of_mem b (ha.trans hab) hb1]
    nlinarith [mul_nonneg (sub_nonneg.2 hab) (mul_nonneg ha (sub_nonneg.2 hb1)),
      mul_nonneg (sub_nonneg.2 hab) (mul_nonneg (ha.trans hab) (sub_nonneg.2 hb1)),
      mul_nonneg (sub_nonneg.2 hab) (mul_nonneg ha (sub_nonneg.2 (hab.trans hb1))),
      mul_nonneg (sub_nonneg.2 hab) (sub_nonneg.2 hab)]
  · intro t ht
    unfold smoothstep
    rw [min_eq_right (ht.le.trans (by norm_num)), max_eq_left ht.le]
    ring
  · intro t ht
    unfold smoothstep
    rw [min_eq_left ht.le, max_eq_right (by norm_num : (0:ℚ) ≤ 1)]
    ring

/-- Closed instance of the smoothstep symmetry law. -/
theorem smoothstep_laws_witness : smoothstep (1/3) + smoothstep (1 - 1/3) = 1 :=
  smoothstep_laws.2.2.2.1 (1/3) (by norm_num) (by norm_num)

/-- C9: `interpolateScalarValues` on a point of dimension d succeeds iff the
corner-scalar count is exactly `2 ^ d`. -/
theorem interpolate_corner_count (scalarValues point : List ℚ) :
    (interpolateScalarValues scalarValues point).isOk = true ↔
      scalarValues.length = 2 ^ point.length := by
  by_cases h : scalarValues.length = 2 ^ point.length <;>
    simp [interpolateScalarValues, h, Except.isOk, Except.toBool]

/-- Closed instance of the corner-count law. -/
theorem interpolate_corner_count_witness :
    (interpolateScalarValues [5, 10] [1/2]).isOk = true :=
  (interpolate_corner_count [5, 10] [1/2]).mpr (by decide)

lemma getD_zero_take (l : List ℚ) (n : ℕ) (hn : 0 < n) (hl : 0 < l.length) :
    (l.take n).getD 0 0 = l.getD 0 0 := by
  cases l with
  | nil => simp at hl
  | cons a t =>
    cases n with
    | zero => omega
    | succ m => simp [List.take]

lemma interpolateRecursive_all_zero (k : ℕ) :
    ∀ (d : ℕ) (sv fc : List ℚ), (∀ t ∈ fc, t = 0) → sv.length = 2 ^ k →
      d + k = fc.length → interpolateRecursive sv fc d = sv.getD 0 0 := by
  induction k with
  | zero =>
    intro d sv fc _hz hlen _hd
    rw [interpolateRecursive, if_pos (by simpa using hlen)]
  | succ k ih =>
    intro d sv fc hz hlen hd
    have h1 : ¬ sv.length = 1 := by
      rw [hlen]
      have : 1 < 2 ^ (k + 1) := Nat.one_lt_two_pow (by omega)
      omega
    have h2 : ¬ (fc.length ≤ d) := by omega
    rw [interpolateRecursive, if_neg h1, dif_neg h2]
    simp only
    have hdlt : d < fc.length := by omega
    have hfc : fc.getD d 0 = 0 := by
      rw [List.getD_eq_getElem _ _ hdlt]
      exact hz _ (List.getElem_mem hdlt)
    rw [hfc, interpolate1D_zero]
    have hhalf : sv.length / 2 = 2 ^ k := by
      rw [hlen, pow_succ, Nat.mul_div_cancel _ (by norm_num)]
    have hlow : (sv.take (sv.length / 2)).length = 2 ^ k := by
      rw [List.length_take, hhalf, hlen, pow_succ]
      have : 2 ^ k ≤ 2 ^ k * 2 := Nat.le_mul_of_pos_right _ (by norm_num)
      omega
    rw [ih (d + 1) _ fc hz hlow (by omega)]
    exact getD_zero_take sv _ (by rw [hhalf]; positivity)
      (by rw [hlen]; positivity)

/-- C6: at a point whose coordinates are all integers (every fractional
coordinate is zero), the interpolation returns exactly the first corner
scalar. -/
theorem exact_node_law (scalarValues point : List ℚ)
    (hlen : scalarValues.length = 2 ^ point.length)
    (hint : ∀ c ∈ point, ∃ z : ℤ, c = (z : ℚ)) :
    interpolateScalarValues scalarValues point = .ok (scalarValues.getD 0 0) := by
  unfold interpolateScalarValues
  rw [if_neg (by simp [hlen])]
  congr 1
  apply interpolateRecursive_all_zero point.length 0
  · intro t ht
    unfold calculateFractionalCoordinates at ht
    obtain ⟨c, hc, rfl⟩ := List.mem_map.mp ht
    obtain ⟨z, rfl⟩ := hint c hc
    simp
  · exact hlen
  · simp [calculateFractionalCoordinates]

/-- Closed instance of the exact-node law: two corner scalars, integer
1-D point. -/
theorem exact_node_law_witness :
    interpolateScalarValues [5, 10] [2] = .ok 5 := by
  have h := exact_node_law [5, 10] [2] (by decide)
    (by intro c hc; refine ⟨2, ?_⟩; simp only [List.mem_singleton] at hc
        rw [hc]; norm_num)
  simpa using h

/- ================= JS remainder and wrapping ================= -/

lemma jsMod_mem_Ico {a b : ℚ} (hb : 0 < b) (ha : 0 ≤ a) :
    0 ≤ jsMod a b ∧ jsMod a b < b := by
  have hq : 0 ≤ a / b := div_nonneg ha hb.le
  have hfl : (⌊a / b⌋ : ℚ) ≤ a / b := Int.floor_le _
  have hfu : a / b < (⌊a / b⌋ : ℚ) + 1 := Int.lt_floor_add_one _
  have hbne : b ≠ 0 := hb.ne'
  have hab : a / b * b = a := div_mul_cancel₀ a hbne
  unfold jsMod qTrunc
  rw [if_pos hq]
  constructor
  · nlinarith
  · nlinarith

lemma jsMod_bounds {a b : ℚ} (hb : 0 < b) : -b < jsMod a b ∧ jsMod a b < b := by
  rcases le_or_lt 0 a with ha | ha
  · have h := jsMod_mem_Ico hb ha
    exact ⟨by linarith [h.1], h.2⟩
  · have hq : ¬ 0 ≤ a / b := not_le.mpr (div_neg_of_neg_of_pos ha hb)
    have hcl : a / b ≤ (⌈a / b⌉ : ℚ) := Int.le_ceil _
    have hcu : (⌈a / b⌉ : ℚ) < a / b + 1 := Int.ceil_lt_add_one _
    have hbne : b ≠ 0 := hb.ne'
    have hab : a / b * b = a := div_mul_cancel₀ a hbne
    unfold jsMod qTrunc
    rw [if_neg hq]
    constructor
    · nlinarith
    · nlinarith

lemma wrapCoord_mem {a b : ℚ} (hb : 0 < b) :
    0 ≤ wrapCoord a b ∧ wrapCoord a b < b := by
  have h1 := jsMod_bounds (a := a) hb
  have h2 : 0 ≤ jsMod a b + b := by linarith [h1.1]
  exact jsMod_mem_Ico hb h2

lemma wrapCoord_sub (a b : ℚ) : ∃ K : ℤ, a - wrapCoord a b = (K : ℚ) * b := by
  refine ⟨qTrunc (a / b) + qTrunc ((jsMod a b + b) / b) - 1, ?_⟩
  unfold wrapCoord jsMod
  push_cast
  ring

lemma wrapCoord_period {a b : ℚ} (hb : 0 < b) :
    wrapCoord (a + b) b = wrapCoord a b := by
  obtain ⟨K1, h1⟩ := wrapCoord_sub (a + b) b
  obtain ⟨K2, h2⟩ := wrapCoord_sub a b
  have m1 := wrapCoord_mem (a := a + b) hb
  have m2 := wrapCoord_mem (a := a) hb
  have hd : wrapCoord (a + b) b - wrapCoord a b = ((K2 - K1 + 1 : ℤ) : ℚ) * b := by
    push_cast
    linarith
  have hub : ((K2 - K1 + 1 : ℤ) : ℚ) * b < 1 * b := by
    rw [one_mul]
    linarith [m1.2, m2.1, hd]
  have hlb : (-1 : ℚ) * b < ((K2 - K1 + 1 : ℤ) : ℚ) * b := by
    rw [neg_one_mul]
    linarith [m1.1, m2.2, hd]
  have hK1 : ((K2 - K1 + 1 : ℤ) : ℚ) < 1 := lt_of_mul_lt_mul_right hub hb.le
  have hK2 : (-1 : ℚ) < ((K2 - K1 + 1 : ℤ) : ℚ) := lt_of_mul_lt_mul_right hlb hb.le
  have hKz : K2 - K1 + 1 = 0 := by
    have p1 : K2 - K1 + 1 < 1 := by exact_mod_cast hK1
    have p2 : (-1 : ℤ) < K2 - K1 + 1 := by exact_mod_cast hK2
    omega
  rw [hKz] at hd
  push_cast at hd
  linarith

/-- C5: the wrap law.  For a 1-dimensional noise field with grid size `[G]`
(`G` a positive integer), `noise [x] = noise [x + G]` for every rational
`x` — both arguments wrap to the same point of `[0, G)`. -/
theorem wrap_law (G : ℕ) (seed : ℤ) (x : ℚ) (inst : PerlinNoise) (hG : 0 < G)
    (h : mkPerlinNoise seed [((G : ℕ) : ℚ)] = .ok inst) :
    inst.noise [x] = inst.noise [x + ((G : ℕ) : ℚ)] := by
  have hGQ : (0 : ℚ) < ((G : ℕ) : ℚ) := by exact_mod_cast hG
  rw [mkPerlinNoise] at h
  norm_num at h
  rw [generateGradientGrid] at h
  norm_num [Except.map] at h
  subst h
  simp only [PerlinNoise.noise, List.length_singleton, List.range_succ,
    List.range_zero, List.nil_append, List.map_cons, List.map_nil,
    List.getD_cons_zero]
  norm_num
  rw [wrapCoord_period hGQ]

/-- Closed instance of the wrap law at `G = 2`, `seed = 1`, `x = 1/2`. -/
theorem wrap_law_witness :
    (samplePerlin 1 [((2 : ℕ) : ℚ)]).noise [1/2]
      = (samplePerlin 1 [((2 : ℕ) : ℚ)]).noise [1/2 + ((2 : ℕ) : ℚ)] := by
  refine wrap_law 2 1 (1/2) _ (by norm_num) ?_
  rw [mkPerlinNoise, generateGradientGrid]
  norm_num [samplePerlin, Except.map, generateGradientGrid]
  rfl

/-- C7 (refuting evaluation): the seeded pseudo-random stream does NOT stay
in `[0, 1)` for every integer seed — with seed `-6`, the very first value
drawn is `(-6*9301+49297) % 233280 = -6509` over `233280`, which is
negative, because the JS remainder keeps the sign of its dividend. -/
theorem rng_negative_seed_value :
    rngStream (-6) 0 = (-6509 : ℚ) / 233280 ∧ rngStream (-6) 0 < 0 := by
  have h1 : rngStream (-6) 0 = rngValue (-6) := rfl
  have h2 : rngStep (-6) = -6509 := by decide
  rw [h1, rngValue, h2]
  norm_num

/-- C1 (refuting evaluation): on corner scalars `[0, 1, 0, 0]` (corner index
1, i.e. axis-0 offset 1 and axis-1 offset 0, carries scalar 1) and point
`[0, 1/2]`, the code's recursive interpolation returns `1/2`, whereas the
claimed weighting — axis `d`'s bit selects the group at depth `d`, so corner
1 is weighted `smoothstep 0 * (1 - smoothstep (1/2)) = 0` — totals `0`: the
depth-0 halving in fact keys on the HIGH bit (axis n-1), not axis 0. -/
theorem interpolation_mixes_corners :
    interpolateScalarValues [0, 1, 0, 0] [0, 1/2] = .ok (1/2) ∧
    claimedInterpolation [0, 1, 0, 0] (calculateFractionalCoordinates [0, 1/2]) = 0 := by
  have hfr : calculateFractionalCoordinates [0, 1/2] = [0, 1/2] := by
    norm_num [calculateFractionalCoordinates]
  have hs : smoothstep (1/2) = 1/2 := smoothstep_half
  constructor
  · simp [interpolateScalarValues, interpolateRecursive, interpolate1D,
      smoothstep, calculateFractionalCoordinates]
    norm_num [Int.fract, min_def, max_def]
  · rw [hfr, claimedInterpolation]
    have hr4 : List.range ([(0:ℚ), 1, 0, 0].length) = [0, 1, 2, 3] := by
      norm_num [List.range_succ]
    rw [hr4]
    simp only [List.map_cons, List.map_nil, List.sum_cons, List.sum_nil,
      List.getD_cons_zero, List.getD_cons_succ]
    have hw1 : claimedCornerWeight [0, 1/2] 1 = 0 := by
      rw [claimedCornerWeight]
      have hr2 : List.range ([(0:ℚ), 1/2].length) = [0, 1] := by
        norm_num [List.range_succ]
      rw [hr2]
      simp only [List.map_cons, List.map_nil, List.prod_cons, List.prod_nil]
      have b0 : ((1 >>> 0) &&& 1) = 1 := by decide
      have b1 : ¬ (((1 >>> 1) &&& 1) = 1) := by decide
      rw [if_pos b0, if_neg b1, List.getD_cons_zero, smoothstep_zero]
      ring
    rw [hw1]
    ring

/- ================= Lattice enumeration lemmas ================= -/

lemma attach_flatMap {α β : Type} (l : List α) (f : α → List β) :
    (l.attach.flatMap fun i => f i.1) = l.flatMap f := by
  simp only [List.flatMap_def, List.attach_map_val]

lemma sum_map_const {α : Type} (l : List α) (c : ℕ) :
    (l.map (fun _ => c)).sum = l.length * c := by
  induction l with
  | nil => simp
  | cons a t ih => simp [ih, Nat.succ_mul, Nat.add_comm]

lemma tupleList_length (ps : List ℚ) :
    (tupleList ps).length = (ps.map (fun p => ⌈p⌉₊)).prod := by
  induction ps with
  | nil => simp [tupleList]
  | cons p ps ih =>
    rw [tupleList, List.length_flatMap]
    have hconst : (List.length ∘ fun i : ℕ => (tupleList ps).map (fun t => ((i : ℕ) : ℚ) :: t))
        = fun _ : ℕ => (tupleList ps).length := by
      funext i
      simp [Function.comp]
    rw [hconst, sum_map_const, List.length_range, ih, List.map_cons, List.prod_cons]

lemma tupleList_nodup (ps : List ℚ) : (tupleList ps).Nodup := by
  induction ps with
  | nil => simp [tupleList]
  | cons p ps ih =>
    rw [tupleList, List.nodup_flatMap]
    constructor
    · intro i _
      exact ih.map List.cons_injective
    · refine (List.pairwise_lt_range _).imp ?_
      intro i j hij
      rw [Function.onFun, List.disjoint_left]
      intro a hai haj
      obtain ⟨t1, _, rfl⟩ := List.mem_map.mp hai
      obtain ⟨t2, _, he⟩ := List.mem_map.mp haj
      have hh : ((j : ℕ) : ℚ) = ((i : ℕ) : ℚ) := by
        injection he
      have : j = i := Nat.cast_injective hh
      omega

lemma tupleList_mem (ps : List ℚ) : ∀ (t : List ℚ),
    t ∈ tupleList ps ↔ ∃ ks : List ℕ, t = ks.map (fun k => ((k : ℕ) : ℚ)) ∧
      List.Forall₂ (fun (k : ℕ) (p : ℚ) => ((k : ℕ) : ℚ) < p) ks ps := by
  induction ps with
  | nil =>
    intro t
    simp only [tupleList, List.mem_singleton]
    constructor
    · rintro rfl
      exact ⟨[], rfl, List.Forall₂.nil⟩
    · rintro ⟨ks, rfl, hf⟩
      rw [List.forall₂_nil_right_iff.mp hf]
      rfl
  | cons p ps ih =>
    intro t
    rw [tupleList]
    simp only [List.mem_flatMap, List.mem_map, List.mem_range]
    constructor
    · rintro ⟨i, hi, t2, ht2, rfl⟩
      obtain ⟨ks, rfl, hf⟩ := (ih t2).mp ht2
      exact ⟨i :: ks, rfl, List.Forall₂.cons (Nat.lt_ceil.mp hi) hf⟩
    · rintro ⟨ks, rfl, hf⟩
      cases ks with
      | nil => cases hf
      | cons k ks =>
        cases hf with
        | cons hk hf2 =>
          exact ⟨k, Nat.lt_ceil.mpr hk, ks.map (fun k => ((k : ℕ) : ℚ)),
            (ih _).mpr ⟨ks, rfl, hf2⟩, rfl⟩

lemma generateCoordinates_eq (dimension : ℕ) (gridPoints : List ℚ) :
    ∀ (n : ℕ) (cur : List ℚ), gridPoints.length = dimension →
      cur.length + n = dimension →
      generateCoordinates dimension gridPoints cur =
        (tupleList (gridPoints.drop cur.length)).map (fun t => cur ++ t) := by
  intro n
  induction n with
  | zero =>
    intro cur hg hc
    rw [generateCoordinates, dif_pos (by omega)]
    rw [List.drop_eq_nil_of_le (by omega), tupleList]
    rw [List.map_cons, List.map_nil, List.append_nil]
  | succ n ih =>
    intro cur hg hc
    have hne : ¬ cur.length = dimension := by omega
    rw [generateCoordinates, dif_neg hne]
    rw [attach_flatMap (List.range ⌈gridPoints.getD cur.length 0⌉₊)
      (fun x : ℕ => generateCoordinates dimension gridPoints (cur ++ [((x : ℕ) : ℚ)]))]
    have hcl : cur.length < gridPoints.length := by omega
    rw [List.getD_eq_getElem _ _ hcl, List.drop_eq_getElem_cons hcl, tupleList]
    have hfun : ∀ i : ℕ,
        generateCoordinates dimension gridPoints (cur ++ [((i : ℕ) : ℚ)]) =
          ((tupleList (gridPoints.drop (cur.length + 1))).map
            (fun t => ((i : ℕ) : ℚ) :: t)).map (fun t => cur ++ t) := by
      intro i
      rw [ih (cur ++ [((i : ℕ) : ℚ)]) hg (by simp; omega)]
      rw [List.map_map]
      simp only [List.length_append, List.length_cons, List.length_nil,
        Function.comp]
      congr 1
      funext t
      simp
    rw [List.map_flatMap]
    exact List.flatMap_congr (fun i _ => hfun i)

/-- The coordinate enumeration used by `generateGradientGrid`, from the top:
it is exactly `tupleList` of the per-axis bounds. -/
lemma generateCoordinates_top (dimension : ℕ) (gridPoints : List ℚ)
    (hg : gridPoints.length = dimension) :
    generateCoordinates dimension gridPoints [] = tupleList gridPoints := by
  rw [generateCoordinates_eq dimension gridPoints dimension [] hg (by simp)]
  simp only [List.length_nil, List.drop_zero]
  have hid : (fun t : List ℚ => [] ++ t) = id := funext fun t => List.nil_append t
  rw [hid, List.map_id]

lemma drawVector_length (n : ℕ) (s : ℤ) : (drawVector n s).1.length = n := by
  induction n generalizing s with
  | zero => rfl
  | succ n ih => simp [drawVector, ih]

lemma normalizeVector_length (v : List ℚ) : (normalizeVector v).length = v.length := by
  simp only [normalizeVector]
  split <;> simp

lemma generateUnitGradient_length (n : ℕ) (s : ℤ) :
    (generateUnitGradient n s).1.length = n := by
  unfold generateUnitGradient
  simp [normalizeVector_length, drawVector_length]

lemma mapSet_of_not_mem (g : GridMap) (k : List ℚ) (v : GradientVector)
    (h : k ∉ gridKeys g) : mapSet g k v = g ++ [(k, v)] := by
  unfold mapSet
  rw [if_neg]
  intro hc
  rw [List.any_eq_true] at hc
  obtain ⟨p, hp, hpk⟩ := hc
  rw [decide_eq_true_eq] at hpk
  exact h (List.mem_map.mpr ⟨p, hp, hpk⟩)

lemma mapSet_mem (g : GridMap) (k : List ℚ) (v : GradientVector) :
    ∀ kv ∈ mapSet g k v, kv ∈ g ∨ kv = (k, v) := by
  intro kv hkv
  unfold mapSet at hkv
  by_cases hany : g.any (fun p => decide (p.1 = k)) = true
  · rw [if_pos hany] at hkv
    obtain ⟨p, hp, he⟩ := List.mem_map.mp hkv
    by_cases hpk : p.1 = k
    · rw [if_pos hpk] at he
      right
      exact he.symm
    · rw [if_neg hpk] at he
      left
      rw [← he]
      exact hp
  · rw [if_neg hany] at hkv
    rcases List.mem_append.mp hkv with h1 | h1
    · exact Or.inl h1
    · right
      exact List.mem_singleton.mp h1

lemma gridLoop_keys (dimension : ℕ) :
    ∀ (coords : List (List ℚ)) (state : ℤ) (g : GridMap),
      (∀ c ∈ coords, c ∉ gridKeys g) → coords.Nodup →
      gridKeys (gridLoop dimension coords state g) = gridKeys g ++ coords := by
  intro coords
  induction coords with
  | nil =>
    intro s g _ _
    simp [gridLoop]
  | cons c rest ih =>
    intro s g hdis hnd
    have hc : c ∉ gridKeys g := hdis c (List.mem_cons_self c rest)
    have hkeys : ∀ v, gridKeys (mapSet g c v) = gridKeys g ++ [c] := by
      intro v
      rw [mapSet_of_not_mem g c v hc]
      simp [gridKeys]
    have hrest : ∀ v : GradientVector, ∀ x ∈ rest, x ∉ gridKeys (mapSet g c v) := by
      intro v x hx
      rw [hkeys v]
      intro hmem
      rcases List.mem_append.mp hmem with h1 | h1
      · exact hdis x (List.mem_cons_of_mem c hx) h1
      · rw [List.mem_singleton] at h1
        subst h1
        exact (List.nodup_cons.mp hnd).1 hx
    have hndr : rest.Nodup := (List.nodup_cons.mp hnd).2
    rw [gridLoop]
    by_cases hd : dimension = 1
    · rw [if_pos hd, ih _ _ (hrest _) hndr, hkeys]
      simp
    · rw [if_neg hd, ih _ _ (hrest _) hndr, hkeys]
      simp

lemma gridLoop_values (dimension : ℕ) :
    ∀ (coords : List (List ℚ)) (state : ℤ) (g : GridMap),
      (∀ kv ∈ g, gradShape dimension kv.2) →
      ∀ kv ∈ gridLoop dimension coords state g, gradShape dimension kv.2 := by
  intro coords
  induction coords with
  | nil =>
    intro s g hg
    simpa [gridLoop] using hg
  | cons c rest ih =>
    intro s g hg
    rw [gridLoop]
    by_cases hd : dimension = 1
    · rw [if_pos hd]
      apply ih
      intro kv hkv
      rcases mapSet_mem g c _ kv hkv with h | h
      · exact hg kv h
      · rw [h]
        unfold gradShape
        rw [if_pos hd]
        exact ⟨_, rfl⟩
    · rw [if_neg hd]
      apply ih
      intro kv hkv
      rcases mapSet_mem g c _ kv hkv with h | h
      · exact hg kv h
      · rw [h]
        unfold gradShape
        rw [if_neg hd]
        exact ⟨_, rfl, generateUnitGradient_length _ _⟩

lemma getGradientAt_of_mem_keys (g : GridMap) (k : List ℚ) :
    k ∈ gridKeys g → ∃ v, getGradientAt g k = some v ∧ (k, v) ∈ g := by
  induction g with
  | nil => intro h; simp [gridKeys] at h
  | cons p rest ih =>
    intro h
    by_cases hpk : p.1 = k
    · refine ⟨p.2, ?_, ?_⟩
      · unfold getGradientAt
        rw [List.find?_cons_of_pos _ (by simp [hpk])]
        rfl
      · have hkp : (k, p.2) = p := by rw [← hpk]
        exact hkp ▸ List.mem_cons_self p rest
    · have hk : k ∈ gridKeys rest := by
        unfold gridKeys at h
        rw [List.map_cons] at h
        rcases List.mem_cons.mp h with h1 | h1
        · exact absurd h1.symm hpk
        · exact h1
      obtain ⟨v, hv, hmem⟩ := ih hk
      refine ⟨v, ?_, List.mem_cons_of_mem _ hmem⟩
      unfold getGradientAt at hv ⊢
      rw [List.find?_cons_of_neg _ (by simp [hpk])]
      exact hv

lemma ceil_cast_add_one (s : ℕ) : ⌈((s : ℕ) : ℚ) + 1⌉₊ = s + 1 := by
  rw [show ((s : ℕ) : ℚ) + 1 = (((s + 1 : ℕ)) : ℚ) by push_cast; ring]
  exact Nat.ceil_natCast _

lemma cast_lt_cast_add_one_iff (k s : ℕ) :
    (((k : ℕ) : ℚ) < ((s : ℕ) : ℚ) + 1) ↔ k ≤ s := by
  rw [show ((s : ℕ) : ℚ) + 1 = (((s + 1 : ℕ)) : ℚ) by push_cast; ring]
  rw [Nat.cast_lt]
  omega

/-- C4: `generateGradientGrid` over a shape of `n` positive cell counts
returns a lattice with exactly `∏ (shape i + 1)` entries, whose keys are
precisely the integer tuples with component `i` in `0..shape i`, without
omissions or duplicates. -/
theorem lattice_keys_complete (shape : List ℕ) (seed : ℤ)
    (hlen : 1 ≤ shape.length) (_hpos : ∀ s ∈ shape, 0 < s) :
    ∃ grid : GridMap,
      generateGradientGrid shape.length (shape.map (fun s => ((s : ℕ) : ℚ))) seed
        = .ok grid ∧
      grid.length = (shape.map (fun s => s + 1)).prod ∧
      (gridKeys grid).Nodup ∧
      (∀ key : List ℚ, key ∈ gridKeys grid ↔
        ∃ ks : List ℕ, key = ks.map (fun k => ((k : ℕ) : ℚ)) ∧
          List.Forall₂ (fun k s => k ≤ s) ks shape) := by
  set sizeQ := shape.map (fun s => ((s : ℕ) : ℚ)) with hsz
  set gridPoints := sizeQ.map (fun s => s + 1) with hgp
  have hgplen : gridPoints.length = shape.length := by simp [hgp, hsz]
  have hgpshape : gridPoints = shape.map (fun s => ((s : ℕ) : ℚ) + 1) := by
    rw [hgp, hsz, List.map_map]
    rfl
  have hcoords : generateCoordinates shape.length gridPoints [] = tupleList gridPoints :=
    generateCoordinates_top _ _ hgplen
  have hggg : generateGradientGrid shape.length sizeQ seed
      = .ok (gridLoop shape.length (generateCoordinates shape.length gridPoints []) seed []) := by
    rw [generateGradientGrid, if_neg (by omega), if_neg (by simp [hsz])]
  set grid := gridLoop shape.length (generateCoordinates shape.length gridPoints []) seed []
    with hgrid
  have hkeys : gridKeys grid = tupleList gridPoints := by
    rw [hgrid, gridLoop_keys shape.length _ seed []
      (by intro c _ hc; simp [gridKeys] at hc) (by rw [hcoords]; exact tupleList_nodup _)]
    rw [hcoords]
    simp [gridKeys]
  have hmapceil : gridPoints.map (fun p => ⌈p⌉₊) = shape.map (fun s => s + 1) := by
    rw [hgpshape, List.map_map]
    apply List.map_congr_left
    intro s _
    simp only [Function.comp]
    exact ceil_cast_add_one s
  refine ⟨grid, hggg, ?_, ?_, ?_⟩
  · have : grid.length = (gridKeys grid).length := by
      simp [gridKeys]
    rw [this, hkeys, tupleList_length, hmapceil]
  · rw [hkeys]
    exact tupleList_nodup _
  · intro key
    rw [hkeys, tupleList_mem]
    constructor
    · rintro ⟨ks, rfl, hf⟩
      refine ⟨ks, rfl, ?_⟩
      rw [hgpshape, List.forall₂_map_right_iff] at hf
      exact hf.imp (fun a b h => (cast_lt_cast_add_one_iff a b).mp h)
    · rintro ⟨ks, rfl, hf⟩
      refine ⟨ks, rfl, ?_⟩
      rw [hgpshape, List.forall₂_map_right_iff]
      exact hf.imp (fun a b h => (cast_lt_cast_add_one_iff a b).mpr h)

/-- Closed instance of the lattice-size law: shape `[1]` gives 2 entries. -/
theorem lattice_keys_complete_witness :
    ∃ grid : GridMap, generateGradientGrid 1 [((1 : ℕ) : ℚ)] 0 = .ok grid ∧
      grid.length = 2 := by
  obtain ⟨grid, hg, hl, _, _⟩ := lattice_keys_complete [1] 0 (by norm_num) (by norm_num)
  refine ⟨grid, ?_, ?_⟩
  · simpa using hg
  · simpa using hl

/-- C10: the `PerlinNoise` constructor checks only the LENGTH of `gridSize`
(1 to 10); element values — negative, zero or non-integer — are never
inspected, so construction succeeds for any of them. -/
theorem constructor_validates_only_length (seed : ℤ) (gridSize : List ℚ)
    (h1 : 1 ≤ gridSize.length) (h2 : gridSize.length ≤ 10) :
    (mkPerlinNoise seed gridSize).isOk = true := by
  rw [mkPerlinNoise, if_neg (by omega)]
  rw [generateGradientGrid, if_neg (by omega), if_neg (by simp)]
  rfl

/-- Closed instance: a grid size with a negative and a non-integer entry is
accepted by the constructor. -/
theorem constructor_validates_only_length_witness :
    (mkPerlinNoise 0 [(-1 : ℚ), 1/2]).isOk = true :=
  constructor_validates_only_length 0 [(-1 : ℚ), 1/2] (by norm_num) (by norm_num)

/-- C3: determinism.  Two `PerlinNoise` instances constructed from the same
seed and grid size have identical gradient lattices (same keys and values)
and return equal noise values on every query point; the construction is a
pure function of the configuration, with no other entropy source. -/
theorem determinism (seed : ℤ) (gridSize point : List ℚ) (p1 p2 : PerlinNoise)
    (h1 : mkPerlinNoise seed gridSize = .ok p1)
    (h2 : mkPerlinNoise seed gridSize = .ok p2) :
    p1.grid = p2.grid ∧ p1.noise point = p2.noise point := by
  rw [h1, Except.ok.injEq] at h2
  rw [h2]
  exact ⟨rfl, rfl⟩

/-- Closed instance of determinism at seed 1, grid size `[1]`, point `[0]`. -/
theorem determinism_witness :
    (samplePerlin 1 [(1 : ℚ)]).grid = (samplePerlin 1 [(1 : ℚ)]).grid ∧
    (samplePerlin 1 [(1 : ℚ)]).noise [0] = (samplePerlin 1 [(1 : ℚ)]).noise [0] := by
  refine determinism 1 [(1 : ℚ)] [0] _ _ ?_ ?_ <;>
    · rw [mkPerlinNoise, generateGradientGrid]
      norm_num [samplePerlin, Except.map, generateGradientGrid]
      rfl

lemma generateGradientGrid_spec (shape : List ℕ) (seed : ℤ)
    (hlen : 1 ≤ shape.length) :
    ∃ grid : GridMap,
      generateGradientGrid shape.length (shape.map (fun s => ((s : ℕ) : ℚ))) seed
        = .ok grid ∧
      gridKeys grid = tupleList (shape.map (fun s => ((s : ℕ) : ℚ) + 1)) ∧
      (∀ kv ∈ grid, gradShape shape.length kv.2) := by
  set sizeQ := shape.map (fun s => ((s : ℕ) : ℚ)) with hsz
  set gridPoints := sizeQ.map (fun s => s + 1) with hgp
  have hgplen : gridPoints.length = shape.length := by simp [hgp, hsz]
  have hgpshape : gridPoints = shape.map (fun s => ((s : ℕ) : ℚ) + 1) := by
    rw [hgp, hsz, List.map_map]
    rfl
  have hcoords : generateCoordinates shape.length gridPoints [] = tupleList gridPoints :=
    generateCoordinates_top _ _ hgplen
  refine ⟨gridLoop shape.length (generateCoordinates shape.length gridPoints []) seed [],
    ?_, ?_, ?_⟩
  · rw [generateGradientGrid, if_neg (by omega), if_neg (by simp [hsz])]
  · rw [gridLoop_keys shape.length _ seed []
      (by intro c _ hc; simp [gridKeys] at hc) (by rw [hcoords]; exact tupleList_nodup _)]
    rw [hcoords, hgpshape]
    simp [gridKeys]
  · exact gridLoop_values shape.length _ seed [] (by intro kv hkv; simp at hkv)

lemma except_bind_ok {ε α β : Type} (a : α) (f : α → Except ε β) :
    ((Except.ok a : Except ε α) >>= f) = f a := rfl

lemma scalarLoop_ok (grid : GridMap) (point : List ℚ) (dimension : ℕ)
    (hdim1 : point.length = dimension)
    (hshape : ∀ kv ∈ grid, gradShape dimension kv.2) :
    ∀ vertices : List (List ℚ),
      (∀ v ∈ vertices, v.length = point.length ∧ v ∈ gridKeys grid) →
      ∃ out : List ℚ, scalarLoop grid point vertices = .ok out ∧
        out.length = vertices.length := by
  intro vertices
  induction vertices with
  | nil => exact fun _ => ⟨[], rfl, rfl⟩
  | cons v rest ih =>
    intro hv
    obtain ⟨hvlen, hvmem⟩ := hv v (List.mem_cons_self v rest)
    obtain ⟨gval, hget, hkvmem⟩ := getGradientAt_of_mem_keys grid v hvmem
    obtain ⟨out, hout, houtlen⟩ := ih (fun x hx => hv x (List.mem_cons_of_mem _ hx))
    have hdv : calculateDistanceVector point v
        = .ok (List.zipWith (fun a b => a - b) point v) := by
      rw [calculateDistanceVector, if_neg (by simp [hvlen])]
    have hdp : ∃ q, dotProduct gval (List.zipWith (fun a b => a - b) point v) = .ok q := by
      have hshape2 := hshape (v, gval) hkvmem
      unfold gradShape at hshape2
      by_cases hd : dimension = 1
      · rw [if_pos hd] at hshape2
        obtain ⟨q, rfl⟩ := hshape2
        exact ⟨_, rfl⟩
      · rw [if_neg hd] at hshape2
        obtain ⟨l, rfl, hl⟩ := hshape2
        refine ⟨(List.zipWith (fun a b => a * b) l
          (List.zipWith (fun a b => a - b) point v)).foldl (fun sum x => sum + x) 0, ?_⟩
        simp only [dotProduct]
        rw [if_neg (by simp [List.length_zipWith, hvlen, hdim1, hl])]
    obtain ⟨q, hq⟩ := hdp
    refine ⟨q :: out, ?_, by simp [houtlen]⟩
    rw [scalarLoop, hdv, except_bind_ok, hget]
    simp only [hq, hout, except_bind_ok]

/-- C2: safety of lattice lookups.  For an instance built from `n` positive
integer cell counts (1 ≤ n ≤ 10) and any query point of matching dimension,
`noise` succeeds: after wrapping, every one of the `2^n` cell-corner
coordinates has a stored gradient, so the gradient-not-found error branch of
`calculateScalarValues` is unreachable (and no other branch errors either). -/
theorem noise_lookup_safe (shape : List ℕ) (seed : ℤ) (point : List ℚ)
    (inst : PerlinNoise)
    (hpos : ∀ s ∈ shape, 0 < s) (hlo : 1 ≤ shape.length) (hhi : shape.length ≤ 10)
    (hpt : point.length = shape.length)
    (hmk : mkPerlinNoise seed (shape.map (fun s => ((s : ℕ) : ℚ))) = .ok inst) :
    (inst.noise point).isOk = true := by
  obtain ⟨grid, hggg, hkeys, hvals⟩ := generateGradientGrid_spec shape seed hlo
  set n := shape.length with hn
  set sizeQ := shape.map (fun s => ((s : ℕ) : ℚ)) with hsz
  have hl : sizeQ.length = n := by simp [hsz]
  rw [mkPerlinNoise, if_neg (by omega), hl, hggg] at hmk
  have hinst : inst = ⟨grid, seed, sizeQ, n⟩ := by
    have := hmk
    simp only [Except.map] at this
    rw [Except.ok.injEq] at this
    exact this.symm
  subst hinst
  dsimp only [PerlinNoise.noise]
  rw [if_neg (by simp [hpt])]
  set W : List ℚ := (List.range point.length).map
    (fun i => wrapCoord (point.getD i 0) (sizeQ.getD i 0)) with hW
  have hWlen : W.length = n := by simp [hW, hpt]
  have hsq : ∀ d : ℕ, sizeQ.getD d 0 = (((shape.getD d 0 : ℕ)) : ℚ) := by
    intro d
    rw [hsz, show (0 : ℚ) = ((0 : ℕ) : ℚ) by norm_num, List.getD_map]
  have hWget : ∀ d, d < n →
      W.getD d 0 = wrapCoord (point.getD d 0) (((shape.getD d 0 : ℕ)) : ℚ) := by
    intro d hd
    have hdw : d < W.length := by omega
    rw [List.getD_eq_getElem _ _ hdw]
    simp only [hW]
    rw [List.getElem_map, List.getElem_range, hsq]
  have hWmem : ∀ d, d < n →
      0 ≤ W.getD d 0 ∧ W.getD d 0 < (((shape.getD d 0 : ℕ)) : ℚ) := by
    intro d hd
    have hds : d < shape.length := by omega
    have hs : 0 < shape.getD d 0 := by
      rw [List.getD_eq_getElem _ _ hds]
      exact hpos _ (List.getElem_mem hds)
    have hQ : (0 : ℚ) < (((shape.getD d 0 : ℕ)) : ℚ) := by exact_mod_cast hs
    rw [hWget d hd]
    exact wrapCoord_mem hQ
  set C : List ℚ := findCell W with hC
  have hClen : C.length = n := by simp [hC, findCell, hWlen]
  have hCget : ∀ d, d < n → C.getD d 0 = ((⌊W.getD d 0⌋ : ℤ) : ℚ) := by
    intro d hd
    have hf0 : ((⌊(0 : ℚ)⌋ : ℤ) : ℚ) = 0 := by norm_num
    rw [hC, findCell]
    conv_lhs => rw [← hf0]
    rw [List.getD_map]
  have hvertlen : (generateCellVertices C).length = 2 ^ n := by
    simp [generateCellVertices, hClen]
  have hkey : ∀ v ∈ generateCellVertices C, v.length = W.length ∧ v ∈ gridKeys grid := by
    intro v hv
    obtain ⟨i, _, rfl⟩ := List.mem_map.mp hv
    constructor
    · simp [hClen, hWlen]
    · rw [hkeys, tupleList_mem]
      refine ⟨(List.range n).map (fun d => (⌊W.getD d 0⌋).toNat + ((i >>> d) &&& 1)),
        ?_, ?_⟩
      · rw [List.map_map, hClen]
        apply List.map_congr_left
        intro d hd
        rw [List.mem_range] at hd
        simp only [Function.comp]
        rw [hCget d hd]
        have h0 : (0 : ℤ) ≤ ⌊W.getD d 0⌋ := Int.floor_nonneg.mpr (hWmem d hd).1
        have hcast : ((⌊W.getD d 0⌋.toNat : ℕ) : ℚ) = ((⌊W.getD d 0⌋ : ℤ) : ℚ) := by
          exact_mod_cast congrArg (fun z : ℤ => (z : ℚ)) (Int.toNat_of_nonneg h0)
        push_cast
        rw [hcast]
      · rw [List.forall₂_iff_get]
        constructor
        · simp [hn]
        · intro j h1 h2
          simp only [List.get_eq_getElem, List.getElem_map, List.getElem_range]
          have hjn : j < n := by simpa using h1
          have h0 : (0 : ℤ) ≤ ⌊W.getD j 0⌋ := Int.floor_nonneg.mpr (hWmem j hjn).1
          have hflt : ⌊W.getD j 0⌋ < ((shape.getD j 0 : ℕ) : ℤ) := by
            rw [Int.floor_lt]
            have := (hWmem j hjn).2
            push_cast
            exact this
          have hbit : (i >>> j) &&& 1 ≤ 1 := Nat.and_le_right
          rw [cast_lt_cast_add_one_iff]
          have hjs : j < shape.length := by omega
          rw [List.getD_eq_getElem _ _ hjs] at hflt
          omega
  obtain ⟨out, hout, houtlen⟩ := scalarLoop_ok grid W n hWlen hvals
    (generateCellVertices C) hkey
  have hcsv : calculateScalarValues grid W = .ok out := by
    rw [calculateScalarValues]
    exact hout
  rw [hcsv, except_bind_ok]
  unfold interpolateScalarValues
  rw [if_neg (by rw [houtlen, hvertlen, hWlen]; simp)]
  rfl

/-- Closed instance of lookup safety: shape `[1]`, seed 1, point `[1/2]`. -/
theorem noise_lookup_safe_witness :
    ((samplePerlin 1 [((1 : ℕ) : ℚ)]).noise [1/2]).isOk = true := by
  refine noise_lookup_safe [1] 1 [1/2] (samplePerlin 1 [((1 : ℕ) : ℚ)])
    (by norm_num) (by norm_num) (by norm_num) (by norm_num) ?_
  rw [mkPerlinNoise, generateGradientGrid]
  norm_num [samplePerlin, Except.map, generateGradientGrid]
  rfl
